import Mathlib

/-!
Shallow embedding of the igloo-web signer session controller, its encrypted
persistence layer and its echo-handshake helpers, translated from
`src/lib/crypto.ts`, `src/lib/storage.ts`, `src/lib/igloo.ts` and
`src/pages/Signer.tsx`.  External collaborators (the Web Crypto API and the
`@frostr/igloo-core` credential codec) are modelled explicitly where the
repository's own code depends on them; those models carry doc comments
saying so.
-/

deriving instance DecidableEq for Except

namespace IglooWeb

/-! ## String helpers (JavaScript string semantics over `List Char`) -/

/-- `charsPre pat s` holds when `pat` occurs at the start of `s`
(character-list version of JavaScript `String.startsWith`). -/
def charsPre : List Char → List Char → Bool
  | [], _ => true
  | _ :: _, [] => false
  | a :: as, b :: bs => a == b && charsPre as bs

/-- `charsSub pat s` holds when `pat` occurs somewhere inside `s`
(character-list version of JavaScript `String.includes`). -/
def charsSub (pat : List Char) : List Char → Bool
  | [] => charsPre pat []
  | c :: cs => charsPre pat (c :: cs) || charsSub pat cs

/-- JavaScript `s.startsWith(pat)`. -/
def strStarts (s pat : String) : Bool := charsPre pat.data s.data

/-- JavaScript `s.includes(pat)`. -/
def strIncludes (s pat : String) : Bool := charsSub pat.data s.data

/-- ASCII whitespace test used by the model of JavaScript `String.trim`. -/
def isWsChar (c : Char) : Bool := c == ' ' || c == '\t' || c == '\n' || c == '\r'

/-- JavaScript `s.trim()`: drop whitespace from both ends. -/
def strTrim (s : String) : String :=
  ⟨((s.data.dropWhile isWsChar).reverse.dropWhile isWsChar).reverse⟩

/-- JavaScript `s.toLowerCase()` (ASCII case folding). -/
def strLower (s : String) : String := ⟨s.data.map Char.toLower⟩

/-- JavaScript `s.replace(/\/$/, '')`: remove a single trailing slash. -/
def stripSlash (s : String) : String :=
  if s.data.getLast? == some '/' then ⟨s.data.dropLast⟩ else s

/-- Lower-case hexadecimal digit for `n < 16`, as produced by JavaScript
`Number.toString(16)`. -/
def hexDigitChar (n : Nat) : Char :=
  if n < 10 then Char.ofNat (48 + n) else Char.ofNat (87 + n)

/-- The two hex digits of one byte (`byte.toString(16).padStart(2, '0')`). -/
def byteHexChars (b : Nat) : List Char := [hexDigitChar (b / 16), hexDigitChar (b % 16)]

/-- Hex encoding of a byte list; models `generateEchoChallenge` in
`src/lib/igloo.ts`, with the random bytes passed in explicitly. -/
def hexOfBytes (bs : List Nat) : String := ⟨(bs.map byteHexChars).flatten⟩

/-- Recogniser for lower-case hexadecimal digits. -/
def isHexDigit (c : Char) : Bool :=
  (48 ≤ c.toNat && c.toNat ≤ 57) || (97 ≤ c.toNat && c.toNat ≤ 102)

/-! ## `src/lib/crypto.ts` — encrypted persistence

PBKDF2 key derivation and AES-GCM are provided by the Web Crypto API, which
is external to the repository.  They are modelled as an ideal key-derivation
function (pairing password and salt, injective) and an ideal authenticated
cipher (decryption succeeds exactly for the key and nonce used to encrypt,
and yields exactly the encrypted plaintext).  JSON and base64 transport of
the payload round-trips for the record types involved and is elided. -/

/-- The decoded credential bundle persisted by the app (`StoredShare` in
`src/lib/storage.ts`). -/
structure StoredShare where
  group : String
  share : String
  relays : List String
  keysetName : Option String
  deriving DecidableEq

/-- Ideal PBKDF2-derived key: determined by password and salt, injectively. -/
structure DerivedKey where
  password : String
  salt : List Nat
  deriving DecidableEq

/-- Ideal AES-GCM ciphertext: remembers the key and nonce it was produced
with; authentication fails for any other key or nonce. -/
structure AeadCiphertext where
  key : DerivedKey
  iv : List Nat
  plain : StoredShare
  deriving DecidableEq

/-- `deriveKey` in `src/lib/crypto.ts` (ideal model of PBKDF2-SHA256). -/
def deriveKey (password : String) (salt : List Nat) : DerivedKey := ⟨password, salt⟩

/-- Ideal authenticated encryption (`crypto.subtle.encrypt` with AES-GCM). -/
def aeadEncrypt (key : DerivedKey) (iv : List Nat) (plain : StoredShare) : AeadCiphertext :=
  ⟨key, iv, plain⟩

/-- Ideal authenticated decryption (`crypto.subtle.decrypt` with AES-GCM):
returns the plaintext only under the exact key and nonce, otherwise fails. -/
def aeadDecrypt (key : DerivedKey) (iv : List Nat) (c : AeadCiphertext) : Option StoredShare :=
  if c.key = key ∧ c.iv = iv then some c.plain else none

/-- The persisted record `{v, salt, iv, data, createdAt}` of
`src/lib/crypto.ts` (`EncryptedBundle`). -/
structure EncryptedBundle where
  v : Nat
  salt : List Nat
  iv : List Nat
  data : AeadCiphertext
  createdAt : String
  deriving DecidableEq

/-- Failure modes of `decryptBundle`: version rejection, or the single
authentication failure produced by AES-GCM for wrong password and for
corrupted data alike. -/
inductive CryptoError where
  | unsupportedVersion
  | authFailure
  deriving DecidableEq

/-- `encryptBundle` in `src/lib/crypto.ts`.  The random salt, the random
nonce and the timestamp are inputs of the model. -/
def encryptBundle (password : String) (salt iv : List Nat) (payload : StoredShare)
    (createdAt : String) : EncryptedBundle :=
  { v := 1, salt := salt, iv := iv,
    data := aeadEncrypt (deriveKey password salt) iv payload, createdAt := createdAt }

/-- `decryptBundle` in `src/lib/crypto.ts`: reject version ≠ 1, then
decrypt-and-authenticate. -/
def decryptBundle (password : String) (bundle : EncryptedBundle) :
    Except CryptoError StoredShare :=
  if bundle.v = 1 then
    match aeadDecrypt (deriveKey password bundle.salt) bundle.iv bundle.data with
    | some payload => Except.ok payload
    | none => Except.error CryptoError.authFailure
  else Except.error CryptoError.unsupportedVersion

/-! ## `src/lib/igloo.ts` — relay normalization -/

/-- `DEFAULT_RELAYS` in `src/lib/igloo.ts`. -/
def DEFAULT_RELAYS : List String := ["wss://relay.primal.net", "wss://relay.damus.io"]

/-- First-occurrence deduplication, as JavaScript `Array.from(new Set(xs))`
(insertion order, first occurrence kept). -/
def dedupFirstAux : List String → List String → List String
  | _, [] => []
  | seen, x :: xs =>
    if x ∈ seen then dedupFirstAux seen xs else x :: dedupFirstAux (x :: seen) xs

/-- `ensureArray` in `src/lib/igloo.ts`:
`Array.from(new Set(value.map(r => r.replace(/\/$/, ''))))`. -/
def ensureArray (value : List String) : List String :=
  dedupFirstAux [] (value.map stripSlash)

/-- Modelled from the spec: the syntactic relay-URL validity used by the
external `@frostr/igloo-core` `validateRelayList` (§6 of the spec); a valid
relay URL is a non-blank `wss://` or `ws://` URL with a non-empty host part. -/
def isValidRelayUrl (s : String) : Bool :=
  (strTrim s != "") &&
    ((strStarts s "wss://" && decide (6 < s.length)) ||
      (strStarts s "ws://" && decide (5 < s.length)))

/-- Result shape of the external validator
(`{normalizedRelays, validRelays, errors}`). -/
structure RelayValidation where
  normalizedRelays : List String
  validRelays : List String
  errors : List String
  deriving DecidableEq

/-- Modelled from the spec: `validateRelayList(urls) -> {normalized, errors}`
from the external `@frostr/igloo-core` codec (§6): the syntactically valid
URLs pass through, every invalid entry is reported as an error. -/
def validateRelayList (relays : List String) : RelayValidation :=
  { normalizedRelays := relays.filter isValidRelayUrl
    validRelays := relays.filter isValidRelayUrl
    errors := (relays.filter (fun r => !isValidRelayUrl r)).map
      (fun r => "Invalid relay URL: " ++ r) }

/-- Result of `normalizeRelays` (`{relays, errors}`). -/
structure NormalizedRelays where
  relays : List String
  errors : List String
  deriving DecidableEq

/-- `normalizeRelays` in `src/lib/igloo.ts`: drop blank entries, fall back to
`DEFAULT_RELAYS` when none remain, validate, prefer the validator's
normalized list, deduplicate and strip trailing slashes, and fall back to
`DEFAULT_RELAYS` again only if the result is empty. -/
def normalizeRelays (relays : List String) : NormalizedRelays :=
  let sanitized := relays.filter (fun r => strTrim r != "")
  let base := if sanitized.isEmpty then DEFAULT_RELAYS else sanitized
  let result := validateRelayList base
  let normalized :=
    if !result.normalizedRelays.isEmpty then result.normalizedRelays
    else if !result.validRelays.isEmpty then result.validRelays
    else base
  let unique := ensureArray normalized
  { relays := if unique.isEmpty then DEFAULT_RELAYS else unique
    errors := result.errors }

/-! ## `src/lib/igloo.ts` — pubkey normalization and echo handshake -/

/-- Modelled from the spec: `normalizePubkey` from the external
`@frostr/igloo-core` codec (§3, §6): strip a leading `02`/`03` parity byte
from a 66-hex-character compressed pubkey. -/
def normalizePubkey (pk : String) : String :=
  if pk.length = 66 ∧ (strStarts pk "02" = true ∨ strStarts pk "03" = true) then
    ⟨pk.data.drop 2⟩
  else pk

/-- `safeNormalize` in `src/lib/igloo.ts` (the model's `normalizePubkey` is
total, so the catch branch returning the input unchanged never fires). -/
def safeNormalize (pk : String) : String := normalizePubkey pk

/-- The `{data, id, tag}` message envelope built by `finalize_message`. -/
structure Envelope where
  data : String
  id : String
  tag : String
  deriving DecidableEq

/-- One call into the relay transport: the fire-and-forget broadcast
primitive `client.publish`, or the point-to-point `client.request`. -/
inductive TransportCall where
  | publish (envelope : Envelope) (pubkey : String)
  | request (envelope : Envelope) (pubkey : String)
  deriving DecidableEq

/-- How the transport's `publish` call behaves: resolves `{ok: true}`,
resolves not-ok with a reason, or throws with an error message. -/
inductive PublishOutcome where
  | ok
  | notOk (reason : String)
  | thrown (message : String)
  deriving DecidableEq

/-- The benign-error test of `publishEchoToSelf`:
`msg.toLowerCase().includes('relay connection closed')`. -/
def relayClosedBenign (message : String) : Bool :=
  strIncludes (strLower message) "relay connection closed"

/-- The benign-error test of `respondToEchoRequest`:
`details.toLowerCase().includes('relay connection closed by us')`. -/
def relayClosedByUsBenign (message : String) : Bool :=
  strIncludes (strLower message) "relay connection closed by us"

/-- `publishEchoToSelf` in `src/lib/igloo.ts`.  Inputs: the node's own
pubkey (`undefined`/empty string are both falsy and abort), the transport's
behaviour for the single publish, and the 16 random challenge bytes.
Returns the reported success flag together with the transport calls made. -/
def publishEchoToSelf (selfPubkey : Option String) (outcome : PublishOutcome)
    (idBytes : List Nat) : Bool × List TransportCall :=
  match selfPubkey with
  | none => (false, [])
  | some pk =>
    if pk = "" then (false, [])
    else
      let envelope : Envelope := { data := "echo", id := hexOfBytes idBytes, tag := "/echo/req" }
      let calls := [TransportCall.publish envelope pk]
      match outcome with
      | PublishOutcome.ok => (true, calls)
      | PublishOutcome.notOk _ => (false, calls)
      | PublishOutcome.thrown m => (relayClosedBenign m, calls)

/-- A peer's `{send?, recv?}` policy as held on the bifrost node. -/
structure PeerPolicyFlags where
  send : Bool
  recv : Bool
  deriving DecidableEq

/-- One entry of the node's internal peer array (`BifrostNodeInternals.peers`). -/
structure NodePeer where
  pubkey : String
  policy : Option PeerPolicyFlags
  deriving DecidableEq

/-- `JSON.stringify` of a `{send, recv}` policy object. -/
def policyJson (p : PeerPolicyFlags) : String :=
  "\x7b\"send\":" ++ (if p.send then "true" else "false") ++
    ",\"recv\":" ++ (if p.recv then "true" else "false") ++ "\x7d"

/-- The fields of an inbound message that `respondToEchoRequest` reads:
`msg.env.pubkey` and `msg.id`, each possibly absent or non-string. -/
structure EchoMessage where
  envPubkey : Option String
  msgId : Option String
  deriving DecidableEq

/-- The correlation id of the `/echo/res` reply: reuse the trimmed inbound
`msg.id` when it is a non-blank string, otherwise a fresh random challenge. -/
def echoResponseId (msgId : Option String) (idBytes : List Nat) : String :=
  match msgId with
  | some i => if strTrim i != "" then strTrim i else hexOfBytes idBytes
  | none => hexOfBytes idBytes

/-- The peer-matching test of `respondToEchoRequest`: a peer entry with a
non-empty pubkey whose normalized pubkey equals the normalized requester. -/
def peerMatches (requester : String) (entry : NodePeer) : Bool :=
  entry.pubkey != "" && safeNormalize entry.pubkey == safeNormalize requester

/-- `respondToEchoRequest` in `src/lib/igloo.ts`: trim and require the
sender pubkey, match it against the node's peer set by normalized pubkey,
ignore unknown senders, otherwise publish one `/echo/res` envelope carrying
the matched peer's policy (defaulting to `{send: true, recv: true}`) back to
the raw sender pubkey; a thrown or not-ok publish is reported successful
only when its message contains `'relay connection closed by us'`. -/
def respondToEchoRequest (peers : List NodePeer) (msg : EchoMessage)
    (outcome : PublishOutcome) (idBytes : List Nat) : Bool × List TransportCall :=
  let raw := strTrim (msg.envPubkey.getD "")
  if raw = "" then (false, [])
  else
    match peers.find? (peerMatches raw) with
    | none => (false, [])
    | some entry =>
      let policy := entry.policy.getD { send := true, recv := true }
      let envelope : Envelope :=
        { data := policyJson policy, id := echoResponseId msg.msgId idBytes, tag := "/echo/res" }
      let calls := [TransportCall.publish envelope raw]
      match outcome with
      | PublishOutcome.ok => (true, calls)
      | PublishOutcome.notOk reason => (relayClosedByUsBenign reason, calls)
      | PublishOutcome.thrown m => (relayClosedByUsBenign m, calls)

/-! ## `src/lib/igloo.ts` — peer liveness refresh -/

/-- The UI's per-peer record (`PeerPolicy` in
`src/components/ui/peer-list.tsx`); `state` is the liveness string.  The
source's `alias` field is called `aliasTag` here because `alias` is reserved
in Lean. -/
structure SignerPeer where
  aliasTag : String
  pubkey : String
  send : Bool
  receive : Bool
  state : String
  deriving DecidableEq

/-- One result entry of the external `pingPeersAdvanced` probe. -/
structure PingStatus where
  pubkey : String
  success : Bool
  deriving DecidableEq

/-- The per-peer update inside `refreshPeerStatuses`: find this peer's probe
result by normalized pubkey; no match leaves the peer unchanged, a match
sets liveness from the probe's success flag. -/
def refreshOnePeer (results : List PingStatus) (peer : SignerPeer) : SignerPeer :=
  match results.find? (fun entry => safeNormalize entry.pubkey == safeNormalize peer.pubkey) with
  | none => peer
  | some st => { peer with state := if st.success then "online" else "offline" }

/-- `const peerList = peers.length ? peers : buildPeerList(group, share)`;
the fallback list derived from the credentials is an input of the model. -/
def effectivePeers (peers fallback : List SignerPeer) : List SignerPeer :=
  if peers.isEmpty then fallback else peers

/-- `refreshPeerStatuses` in `src/lib/igloo.ts` (success path): probe all
peers and merge the results back by normalized pubkey.  The probe results
are an input of the model. -/
def refreshPeerStatuses (peers fallback : List SignerPeer) (results : List PingStatus) :
    List SignerPeer :=
  let peerList := effectivePeers peers fallback
  if peerList.isEmpty then peerList
  else peerList.map (refreshOnePeer results)

/-! ## `src/lib/storage.ts` — persistence -/

/-- Failures of `loadStoredShare`: no record in storage, or a decryption
failure from `decryptBundle`. -/
inductive StorageError where
  | noSavedShare
  | crypto (e : CryptoError)
  deriving DecidableEq

/-- `saveStoredShare` in `src/lib/storage.ts`: normalize the relay list,
then encrypt the bundle under the password. -/
def saveStoredShare (password : String) (data : StoredShare) (salt iv : List Nat)
    (createdAt : String) : EncryptedBundle :=
  encryptBundle password salt iv { data with relays := (normalizeRelays data.relays).relays }
    createdAt

/-- `loadStoredShare` in `src/lib/storage.ts`: require a stored record,
decrypt it, and re-normalize the decrypted relay list. -/
def loadStoredShare (password : String) (stored : Option EncryptedBundle) :
    Except StorageError StoredShare :=
  match stored with
  | none => Except.error StorageError.noSavedShare
  | some bundle =>
    match decryptBundle password bundle with
    | Except.error e => Except.error (StorageError.crypto e)
    | Except.ok payload =>
      Except.ok { payload with relays := (normalizeRelays payload.relays).relays }

/-- The unlock page (`UnlockPage`) catches every failure of
`unlock(password)` and displays the one generic message, distinguishing
nothing. -/
def unlockErrorMessage (_e : StorageError) : String := "Invalid password or corrupted data"

/-- A persisted plaintext peer policy (`StoredPeerPolicy` in
`src/lib/storage.ts`). -/
structure StoredPeerPolicy where
  pubkey : String
  send : Bool
  receive : Bool
  deriving DecidableEq

/-- `loadPeerPolicies` in `src/lib/storage.ts`: the stored string (if any)
and the outcome of `JSON.parse` on it are inputs of the model; an absent
record or a parse failure yields the empty list, and the try/catch makes the
operation total. -/
def loadPeerPolicies (raw : Option String)
    (parse : String → Option (List StoredPeerPolicy)) : List StoredPeerPolicy :=
  match raw with
  | none => []
  | some s => (parse s).getD []

/-! ## `src/pages/Signer.tsx` — log buffer and message dispatch -/

/-- `MAX_LOGS` in `src/pages/Signer.tsx`. -/
def MAX_LOGS : Nat := 200

/-- An event-log entry (the fields the log buffer stores). -/
structure LogEntry where
  time : String
  level : String
  message : String
  deriving DecidableEq

/-- `addLog` in `src/pages/Signer.tsx`:
`[...prev.slice(-MAX_LOGS + 1), entry]`. -/
def addLog (prev : List LogEntry) (entry : LogEntry) : List LogEntry :=
  prev.drop (prev.length - (MAX_LOGS - 1)) ++ [entry]

/-- `EVENT_LABELS` in `src/pages/Signer.tsx`: the fixed labels for the
exact-match control tags. -/
def eventLabel (tag : String) : Option (String × String) :=
  if tag = "ready" then some ("READY", "Node is ready")
  else if tag = "closed" then some ("INFO", "Node closed connection")
  else if tag = "error" then some ("ERROR", "Node error")
  else none

/-- What one run of the `message` handler does synchronously: whether the
inbound echo responder was triggered, and the log entries (level, message)
appended by the dispatch classification itself. -/
structure DispatchResult where
  echoTriggered : Bool
  logs : List (String × String)
  deriving DecidableEq

/-- `handleMessage` in `src/pages/Signer.tsx`: default the tag to
`"message"`, trigger the echo responder for `/echo/req` when a node is
active, then classify: exact control-tag match, else `/sign/`, `/ecdh/`,
`/ping/` prefix categories; any other tag appends nothing. -/
def handleMessage (tagValue : Option String) (nodeActive : Bool) : DispatchResult :=
  let tag := tagValue.getD "message"
  let echoTriggered := tag == "/echo/req" && nodeActive
  let logs :=
    match eventLabel tag with
    | some lbl => [lbl]
    | none =>
      if strStarts tag "/sign/" then [("SIGN", "Signature event " ++ tag)]
      else if strStarts tag "/ecdh/" then [("ECDH", "ECDH event " ++ tag)]
      else if strStarts tag "/ping/" then [("PING", "Ping event " ++ tag)]
      else []
  { echoTriggered := echoTriggered, logs := logs }

/-- A concrete bundle whose relay list carries a trailing slash. -/
def sampleBundle : StoredShare :=
  { group := "grp-credential", share := "shr-credential",
    relays := ["wss://relay.primal.net/"], keysetName := none }

/-- A concrete bundle whose relay list is already in normalized form. -/
def normalBundle : StoredShare :=
  { group := "g", share := "s", relays := ["wss://relay.primal.net"], keysetName := none }

/-! ## Helper lemmas -/

theorem charsPre_two {a b : Char} {rest l : List Char}
    (h : charsPre (a :: b :: rest) l = true) : ∃ t, l = a :: b :: t := by
  cases l with
  | nil => simp [charsPre] at h
  | cons x xs =>
    cases xs with
    | nil => simp [charsPre] at h
    | cons y ys =>
      simp only [charsPre, Bool.and_eq_true, beq_iff_eq] at h
      obtain ⟨h1, h2, -⟩ := h
      exact ⟨ys, by rw [← h1, ← h2]⟩

theorem charsPre_false_second {a c b : Char} (hbc : (c == b) = false) (rest t : List Char) :
    charsPre (a :: c :: rest) (a :: b :: t) = false := by
  simp [charsPre, hbc]

theorem mem_dedupFirstAux {x : String} (l : List String) : ∀ (seen : List String),
    x ∈ dedupFirstAux seen l ↔ x ∈ l ∧ x ∉ seen := by
  induction l with
  | nil =>
    intro seen
    simp [dedupFirstAux]
  | cons a as ih =>
    intro seen
    simp only [dedupFirstAux]
    by_cases ha : a ∈ seen
    · rw [if_pos ha, ih seen]
      constructor
      · rintro ⟨hx, hs⟩
        exact ⟨List.mem_cons_of_mem a hx, hs⟩
      · rintro ⟨hx, hs⟩
        rcases List.mem_cons.mp hx with rfl | hx
        · exact absurd ha hs
        · exact ⟨hx, hs⟩
    · rw [if_neg ha]
      constructor
      · intro hx
        rcases List.mem_cons.mp hx with rfl | hx
        · exact ⟨List.mem_cons_self _ _, ha⟩
        · rw [ih (a :: seen)] at hx
          obtain ⟨h1, h2⟩ := hx
          exact ⟨List.mem_cons_of_mem a h1, fun h => h2 (List.mem_cons_of_mem a h)⟩
      · rintro ⟨hx, hs⟩
        by_cases hxa : x = a
        · subst hxa
          exact List.mem_cons_self _ _
        · rcases List.mem_cons.mp hx with h | h
          · exact absurd h hxa
          · refine List.mem_cons_of_mem a ?_
            rw [ih (a :: seen)]
            refine ⟨h, fun hm => ?_⟩
            rcases List.mem_cons.mp hm with h' | h'
            · exact hxa h'
            · exact hs h'

theorem nodup_dedupFirstAux (l : List String) : ∀ (seen : List String),
    (dedupFirstAux seen l).Nodup := by
  induction l with
  | nil =>
    intro seen
    simp [dedupFirstAux]
  | cons a as ih =>
    intro seen
    simp only [dedupFirstAux]
    by_cases ha : a ∈ seen
    · rw [if_pos ha]
      exact ih seen
    · rw [if_neg ha]
      refine List.nodup_cons.mpr ⟨?_, ih (a :: seen)⟩
      intro hmem
      rw [mem_dedupFirstAux] at hmem
      exact hmem.2 (List.mem_cons_self a seen)

theorem mem_ensureArray {x : String} {v : List String} :
    x ∈ ensureArray v ↔ ∃ r ∈ v, stripSlash r = x := by
  unfold ensureArray
  rw [mem_dedupFirstAux]
  simp [List.mem_map]

theorem nodup_ensureArray (v : List String) : (ensureArray v).Nodup :=
  nodup_dedupFirstAux _ _

theorem ensureArray_ne_nil {v : List String} (hv : v ≠ []) : ensureArray v ≠ [] := by
  cases v with
  | nil => exact absurd rfl hv
  | cons a as =>
    unfold ensureArray
    simp only [List.map_cons, dedupFirstAux]
    rw [if_neg (List.not_mem_nil _)]
    exact List.cons_ne_nil _ _

theorem isHexDigit_hexDigitChar {n : Nat} (h : n < 16) : isHexDigit (hexDigitChar n) = true := by
  interval_cases n <;> decide

theorem byteHexChars_hex {b : Nat} (h : b < 256) : (byteHexChars b).all isHexDigit = true := by
  have h1 : b / 16 < 16 := by
    rw [Nat.div_lt_iff_lt_mul] <;> omega
  have h2 : b % 16 < 16 := Nat.mod_lt _ (by omega)
  simp [byteHexChars, isHexDigit_hexDigitChar h1, isHexDigit_hexDigitChar h2]

theorem hexOfBytes_hex {bs : List Nat} (h : ∀ b ∈ bs, b < 256) :
    (hexOfBytes bs).data.all isHexDigit = true := by
  induction bs with
  | nil => rfl
  | cons b rest ih =>
    have hb := h b (List.mem_cons_self _ _)
    have hrest : ∀ x ∈ rest, x < 256 := fun x hx => h x (List.mem_cons_of_mem b hx)
    have ihh : (List.map byteHexChars rest).flatten.all isHexDigit = true := ih hrest
    show ((b :: rest).map byteHexChars).flatten.all isHexDigit = true
    rw [List.map_cons, List.flatten_cons, List.all_append, byteHexChars_hex hb, ihh]
    rfl

theorem hexOfBytes_length (bs : List Nat) : (hexOfBytes bs).length = 2 * bs.length := by
  induction bs with
  | nil => rfl
  | cons b rest ih =>
    have ih2 : (List.map byteHexChars rest).flatten.length = 2 * rest.length := ih
    show ((b :: rest).map byteHexChars).flatten.length = 2 * (b :: rest).length
    rw [List.map_cons, List.flatten_cons, List.length_append, ih2, List.length_cons]
    have hbl : (byteHexChars b).length = 2 := rfl
    rw [hbl]
    omega

theorem normalizeRelays_of_valid {relays : List String} {r0 : String}
    (h0 : r0 ∈ relays) (hv : isValidRelayUrl r0 = true) :
    (normalizeRelays relays).relays =
      ensureArray ((relays.filter (fun r => strTrim r != "")).filter isValidRelayUrl) := by
  have htrim : (strTrim r0 != "") = true := by
    unfold isValidRelayUrl at hv
    exact (Eq.mp (Bool.and_eq_true _ _) hv).1
  have hmem : r0 ∈ relays.filter (fun r => strTrim r != "") := List.mem_filter.mpr ⟨h0, htrim⟩
  have hSfalse : (relays.filter (fun r => strTrim r != "")).isEmpty = false :=
    List.isEmpty_eq_false.mpr (List.ne_nil_of_mem hmem)
  have hmemV : r0 ∈ (relays.filter (fun r => strTrim r != "")).filter isValidRelayUrl :=
    List.mem_filter.mpr ⟨hmem, hv⟩
  have hVne : (relays.filter (fun r => strTrim r != "")).filter isValidRelayUrl ≠ [] :=
    List.ne_nil_of_mem hmemV
  have hVfalse : ((relays.filter (fun r => strTrim r != "")).filter isValidRelayUrl).isEmpty = false :=
    List.isEmpty_eq_false.mpr hVne
  have hUfalse :
      (ensureArray ((relays.filter (fun r => strTrim r != "")).filter isValidRelayUrl)).isEmpty = false :=
    List.isEmpty_eq_false.mpr (ensureArray_ne_nil hVne)
  unfold normalizeRelays validateRelayList
  simp only [hSfalse, hVfalse, hUfalse, Bool.not_false, if_false, if_true, Bool.false_eq_true,
    ite_false, ite_true]

theorem normalizeRelays_of_all_invalid {relays : List String}
    (hinv : ∀ r ∈ relays, isValidRelayUrl r = false)
    {r0 : String} (h0 : r0 ∈ relays) (h0nb : (strTrim r0 != "") = true) :
    (normalizeRelays relays).relays = ensureArray (relays.filter (fun r => strTrim r != "")) ∧
    (normalizeRelays relays).errors ≠ [] := by
  have hmem : r0 ∈ relays.filter (fun r => strTrim r != "") := List.mem_filter.mpr ⟨h0, h0nb⟩
  have hSne : relays.filter (fun r => strTrim r != "") ≠ [] := List.ne_nil_of_mem hmem
  have hSfalse : (relays.filter (fun r => strTrim r != "")).isEmpty = false :=
    List.isEmpty_eq_false.mpr hSne
  have hVnil : (relays.filter (fun r => strTrim r != "")).filter isValidRelayUrl = [] := by
    rw [List.filter_eq_nil_iff]
    intro a ha
    simp [hinv a (List.mem_filter.mp ha).1]
  have hUfalse : (ensureArray (relays.filter (fun r => strTrim r != ""))).isEmpty = false :=
    List.isEmpty_eq_false.mpr (ensureArray_ne_nil hSne)
  have hFself : (relays.filter (fun r => strTrim r != "")).filter (fun r => !isValidRelayUrl r) =
      relays.filter (fun r => strTrim r != "") := by
    rw [List.filter_eq_self]
    intro a ha
    simp [hinv a (List.mem_filter.mp ha).1]
  unfold normalizeRelays validateRelayList
  simp only [hSfalse, hVnil, hFself, hUfalse, List.isEmpty_nil, Bool.not_true, Bool.not_false,
    Bool.false_eq_true, ite_false, ite_true, if_false, if_true]
  refine ⟨trivial, ?_⟩
  intro hmapnil
  exact hSne (List.map_eq_nil_iff.mp hmapnil)

theorem normalizeRelays_of_all_blank {relays : List String}
    (hb : ∀ r ∈ relays, strTrim r = "") :
    normalizeRelays relays = { relays := DEFAULT_RELAYS, errors := [] } := by
  have hS : relays.filter (fun r => strTrim r != "") = [] := by
    rw [List.filter_eq_nil_iff]
    intro a ha
    simp [hb a ha]
  unfold normalizeRelays validateRelayList
  simp only [hS]
  decide

/-! ## Claim C6 -/

/-- Claim C6 is refuted on the all-invalid side: for the input
`["not-a-url"]`, whose single entry is not a syntactically valid relay URL,
`normalizeRelays` does not fall back to the configured default relay set —
it returns the invalid entry itself (the validator's empty normalized list
makes the code fall back to the sanitized input), together with the
reported errors. -/
theorem C6_counterexample :
    isValidRelayUrl "not-a-url" = false ∧
    (normalizeRelays ["not-a-url"]).relays = ["not-a-url"] ∧
    (normalizeRelays ["not-a-url"]).relays ≠ DEFAULT_RELAYS ∧
    (normalizeRelays ["not-a-url"]).errors ≠ [] := by
  decide

/-- Claim C6 (amended): for every input containing at least one
syntactically valid relay URL, `normalizeRelays` returns a non-empty,
duplicate-free list each of whose elements is the trailing-slash-stripped
form of a valid input entry; an input whose entries are all invalid but not
all blank does NOT fall back to the defaults — it yields the deduplicated,
slash-stripped non-blank entries and reports the validation errors; only an
input with no non-blank entry at all falls back to `DEFAULT_RELAYS`, and
that case reports no errors. -/
theorem C6_normalizeRelays (relays : List String) :
    ((∃ r ∈ relays, isValidRelayUrl r = true) →
      (normalizeRelays relays).relays ≠ [] ∧
      (normalizeRelays relays).relays.Nodup ∧
      (∀ x ∈ (normalizeRelays relays).relays,
        ∃ r ∈ relays, isValidRelayUrl r = true ∧ stripSlash r = x)) ∧
    ((∀ r ∈ relays, isValidRelayUrl r = false) → (∃ r ∈ relays, strTrim r ≠ "") →
      (normalizeRelays relays).relays = ensureArray (relays.filter (fun r => strTrim r != "")) ∧
      (normalizeRelays relays).errors ≠ []) ∧
    ((∀ r ∈ relays, strTrim r = "") →
      normalizeRelays relays = { relays := DEFAULT_RELAYS, errors := [] }) := by
  refine ⟨?_, ?_, ?_⟩
  · rintro ⟨r0, h0, hv⟩
    have htrim : (strTrim r0 != "") = true := by
      have hv2 := hv
      unfold isValidRelayUrl at hv2
      exact (Eq.mp (Bool.and_eq_true _ _) hv2).1
    have heq := normalizeRelays_of_valid h0 hv
    have hmemV : r0 ∈ (relays.filter (fun r => strTrim r != "")).filter isValidRelayUrl :=
      List.mem_filter.mpr ⟨List.mem_filter.mpr ⟨h0, htrim⟩, hv⟩
    refine ⟨?_, ?_, ?_⟩
    · rw [heq]
      exact ensureArray_ne_nil (List.ne_nil_of_mem hmemV)
    · rw [heq]
      exact nodup_ensureArray _
    · intro x hx
      rw [heq, mem_ensureArray] at hx
      obtain ⟨r, hr, hxr⟩ := hx
      obtain ⟨hrS, hrV⟩ := List.mem_filter.mp hr
      exact ⟨r, (List.mem_filter.mp hrS).1, hrV, hxr⟩
  · rintro hinv ⟨r0, h0, h0nb⟩
    exact normalizeRelays_of_all_invalid hinv h0 (bne_iff_ne.mpr h0nb)
  · exact normalizeRelays_of_all_blank

/-- Witness for the amended claim C6, exercising all three branches on
concrete inputs. -/
theorem C6_witness :
    ((normalizeRelays ["wss://relay.primal.net/", "bad url", "wss://relay.primal.net"]).relays ≠ [] ∧
      (normalizeRelays ["wss://relay.primal.net/", "bad url", "wss://relay.primal.net"]).relays.Nodup ∧
      (∀ x ∈ (normalizeRelays ["wss://relay.primal.net/", "bad url", "wss://relay.primal.net"]).relays,
        ∃ r ∈ ["wss://relay.primal.net/", "bad url", "wss://relay.primal.net"],
          isValidRelayUrl r = true ∧ stripSlash r = x)) ∧
    ((normalizeRelays ["not-a-url", " "]).relays =
        ensureArray (["not-a-url", " "].filter (fun r => strTrim r != "")) ∧
      (normalizeRelays ["not-a-url", " "]).errors ≠ []) ∧
    normalizeRelays ["", "  "] = { relays := DEFAULT_RELAYS, errors := [] } :=
  ⟨(C6_normalizeRelays _).1 ⟨"wss://relay.primal.net/", by decide, by decide⟩,
    (C6_normalizeRelays _).2.1 (by decide) ⟨"not-a-url", by decide, by decide⟩,
    (C6_normalizeRelays _).2.2 (by decide)⟩

/-! ## Claims C1 and C2 -/

/-- Claim C1 is refuted as stated: saving and re-loading `sampleBundle`,
whose non-empty relay list carries a trailing slash, returns a bundle whose
relay list was normalized on the way (the slash is stripped by
`saveStoredShare`), so the result is not deep-equal to the original. -/
theorem C1_counterexample :
    sampleBundle.relays ≠ [] ∧
    loadStoredShare "pw" (some (saveStoredShare "pw" sampleBundle [0] [1] "t")) =
      Except.ok { sampleBundle with relays := ["wss://relay.primal.net"] } ∧
    loadStoredShare "pw" (some (saveStoredShare "pw" sampleBundle [0] [1] "t")) ≠
      Except.ok sampleBundle := by
  decide

/-- Claim C1 (amended): loading with the same password the record produced
by saving a bundle with a non-empty relay list always preserves `group`,
`share` and `keysetName` and returns the (twice-)normalized relay list; the
result is deep-equal to the original exactly as claimed whenever the
original's relay list is already in normalized form. -/
theorem C1_save_load (password : String) (b : StoredShare) (salt iv : List Nat)
    (createdAt : String) (_hne : b.relays ≠ []) :
    loadStoredShare password (some (saveStoredShare password b salt iv createdAt)) =
      Except.ok { b with relays :=
        (normalizeRelays ((normalizeRelays b.relays).relays)).relays } ∧
    ((normalizeRelays b.relays).relays = b.relays →
      loadStoredShare password (some (saveStoredShare password b salt iv createdAt)) =
        Except.ok b) := by
  have hload : loadStoredShare password (some (saveStoredShare password b salt iv createdAt)) =
      Except.ok { b with relays :=
        (normalizeRelays ((normalizeRelays b.relays).relays)).relays } := by
    unfold loadStoredShare saveStoredShare encryptBundle decryptBundle aeadEncrypt aeadDecrypt
      deriveKey
    simp
  refine ⟨hload, fun hfix => ?_⟩
  rw [hload, hfix, hfix]

/-- Witness for the amended claim C1 at a concrete, already-normalized
bundle: the round trip is the identity. -/
theorem C1_witness :
    loadStoredShare "pw" (some (saveStoredShare "pw" normalBundle [2] [3] "t")) =
      Except.ok normalBundle :=
  (C1_save_load "pw" normalBundle [2] [3] "t" (by decide)).2 (by decide)

/-- Claim C2: decryption with a wrong password fails with the same
authentication failure as a corrupted record (tampered salt or nonce), never
returning partial data; a record whose version is not the known version 1 is
rejected; and the unlock surface maps every load failure to the one generic
"Invalid password or corrupted data" message, distinguishing nothing. -/
theorem C2_decrypt_failure (p pBad : String) (salt iv : List Nat)
    (payload : StoredShare) (createdAt : String) (hp : pBad ≠ p) :
    decryptBundle pBad (encryptBundle p salt iv payload createdAt) =
      Except.error CryptoError.authFailure ∧
    (∀ s, decryptBundle pBad (encryptBundle p salt iv payload createdAt) ≠ Except.ok s) ∧
    (∀ salt', salt' ≠ salt →
      decryptBundle p { encryptBundle p salt iv payload createdAt with salt := salt' } =
        Except.error CryptoError.authFailure) ∧
    (∀ iv', iv' ≠ iv →
      decryptBundle p { encryptBundle p salt iv payload createdAt with iv := iv' } =
        Except.error CryptoError.authFailure) ∧
    (∀ bundle : EncryptedBundle, bundle.v ≠ 1 →
      decryptBundle pBad bundle = Except.error CryptoError.unsupportedVersion) ∧
    (∀ e e' : StorageError, unlockErrorMessage e = unlockErrorMessage e') := by
  have h1 : decryptBundle pBad (encryptBundle p salt iv payload createdAt) =
      Except.error CryptoError.authFailure := by
    unfold decryptBundle encryptBundle aeadEncrypt aeadDecrypt deriveKey
    simp [DerivedKey.mk.injEq, hp, Ne.symm hp]
  refine ⟨h1, ?_, ?_, ?_, ?_, fun _ _ => rfl⟩
  · intro s hs
    rw [h1] at hs
    exact Except.noConfusion hs
  · intro salt' hs
    unfold decryptBundle encryptBundle aeadEncrypt aeadDecrypt deriveKey
    simp [DerivedKey.mk.injEq, Ne.symm hs]
  · intro iv' hiv
    unfold decryptBundle encryptBundle aeadEncrypt aeadDecrypt deriveKey
    simp [Ne.symm hiv]
  · intro bundle hv
    unfold decryptBundle
    rw [if_neg hv]

/-- Witness for claim C2 at concrete inputs. -/
theorem C2_witness :
    decryptBundle "wrong" (encryptBundle "right" [0] [1] sampleBundle "t") =
      Except.error CryptoError.authFailure :=
  (C2_decrypt_failure "right" "wrong" [0] [1] sampleBundle "t" (by decide)).1

/-! ## Claim C3 -/

/-- Claim C3: on a node whose own pubkey is available, the self-echo
operation performs exactly one transport call — a `client.publish` (never a
`client.request`) of a single envelope with tag `/echo/req`, the fixed
payload `echo` and a random even-length lowercase-hex correlation id,
addressed to the node's own pubkey — whatever the publish outcome is. -/
theorem C3_publishEchoToSelf (pk : String) (hpk : pk ≠ "") (outcome : PublishOutcome)
    (idBytes : List Nat) (hbytes : ∀ b ∈ idBytes, b < 256) :
    (publishEchoToSelf (some pk) outcome idBytes).2 =
      [TransportCall.publish { data := "echo", id := hexOfBytes idBytes, tag := "/echo/req" } pk] ∧
    (∀ env q, TransportCall.request env q ∉ (publishEchoToSelf (some pk) outcome idBytes).2) ∧
    (hexOfBytes idBytes).data.all isHexDigit = true ∧
    (hexOfBytes idBytes).length = 2 * idBytes.length := by
  have htrace : (publishEchoToSelf (some pk) outcome idBytes).2 =
      [TransportCall.publish { data := "echo", id := hexOfBytes idBytes, tag := "/echo/req" } pk] := by
    unfold publishEchoToSelf
    cases outcome <;> simp [hpk]
  refine ⟨htrace, ?_, hexOfBytes_hex hbytes, hexOfBytes_length idBytes⟩
  intro env q hmem
  rw [htrace] at hmem
  rcases List.mem_cons.mp hmem with h | h
  · exact TransportCall.noConfusion h
  · exact List.not_mem_nil _ h

/-- Witness for claim C3 at a concrete pubkey and challenge. -/
theorem C3_witness :
    (publishEchoToSelf (some "ab") PublishOutcome.ok [0, 255]).2 =
      [TransportCall.publish
        { data := "echo", id := hexOfBytes [0, 255], tag := "/echo/req" } "ab"] :=
  (C3_publishEchoToSelf "ab" (by decide) PublishOutcome.ok [0, 255] (by decide)).1

/-! ## Claim C4 -/

/-- Claim C4 is refuted on the inbound path: a transport error thrown while
publishing the `/echo/res` reply whose message is exactly
`"relay connection closed"` — a message that indicates the relay connection
closed, and that the outbound self-echo path classifies as success — makes
`respondToEchoRequest` report failure, because the responder only accepts
messages containing `"relay connection closed by us"`. -/
theorem C4_counterexample :
    (respondToEchoRequest [{ pubkey := "ab", policy := none }]
        { envPubkey := some "ab", msgId := some "cid" }
        (PublishOutcome.thrown "relay connection closed") [0]).1 = false ∧
    (publishEchoToSelf (some "ab")
        (PublishOutcome.thrown "relay connection closed") [0]).1 = true := by
  decide

/-- Claim C4 (amended): for a thrown transport error, the outbound
self-echo reports success exactly when the lower-cased message contains
`"relay connection closed"`, while the inbound echo response reports
success exactly when it contains the stricter `"relay connection closed by
us"`; every other thrown error yields `false`, and in both operations the
single publish attempt is never retried. -/
theorem C4_echo_error_classification (pk m envPk : String) (hpk : pk ≠ "")
    (idBytes : List Nat) (peers : List NodePeer) (msgId : Option String)
    (entry : NodePeer) (hraw : strTrim envPk ≠ "")
    (hfind : peers.find? (peerMatches (strTrim envPk)) = some entry) :
    (publishEchoToSelf (some pk) (PublishOutcome.thrown m) idBytes).1 = relayClosedBenign m ∧
    (publishEchoToSelf (some pk) (PublishOutcome.thrown m) idBytes).2.length = 1 ∧
    (respondToEchoRequest peers { envPubkey := some envPk, msgId := msgId }
        (PublishOutcome.thrown m) idBytes).1 = relayClosedByUsBenign m ∧
    (respondToEchoRequest peers { envPubkey := some envPk, msgId := msgId }
        (PublishOutcome.thrown m) idBytes).2.length = 1 := by
  refine ⟨?_, ?_, ?_, ?_⟩ <;>
    simp [publishEchoToSelf, respondToEchoRequest, hpk, hraw, hfind]

/-- Witness for the amended claim C4 at concrete inputs. -/
theorem C4_witness :
    (publishEchoToSelf (some "ab") (PublishOutcome.thrown "boom") [0]).1 =
      relayClosedBenign "boom" ∧
    (respondToEchoRequest [{ pubkey := "ab", policy := none }]
        { envPubkey := some "ab", msgId := none }
        (PublishOutcome.thrown "boom") [0]).1 = relayClosedByUsBenign "boom" := by
  have h := C4_echo_error_classification "ab" "boom" "ab" (by decide) [0]
    [{ pubkey := "ab", policy := none }] none { pubkey := "ab", policy := none }
    (by decide) (by decide)
  exact ⟨h.1, h.2.2.1⟩

/-! ## Claim C5 -/

/-- Claim C5: an inbound `/echo/req` whose trimmed sender pubkey matches a
peer of the current peer set (by normalized pubkey) produces exactly one
`/echo/res` publish back to that sender, carrying the matched peer's
current `{send, recv}` policy (defaulting to allow/allow) and reusing the
inbound correlation id whenever one is present and non-blank; a sender
matching no peer produces zero publishes, so policy data never leaves the
peer set. -/
theorem C5_respondToEchoRequest (peers : List NodePeer) (envPk : String)
    (msgId : Option String) (outcome : PublishOutcome) (idBytes : List Nat)
    (hraw : strTrim envPk ≠ "") :
    (∀ entry, peers.find? (peerMatches (strTrim envPk)) = some entry →
      (respondToEchoRequest peers { envPubkey := some envPk, msgId := msgId }
          outcome idBytes).2 =
        [TransportCall.publish
          { data := policyJson (entry.policy.getD { send := true, recv := true }),
            id := echoResponseId msgId idBytes,
            tag := "/echo/res" } (strTrim envPk)]) ∧
    (peers.find? (peerMatches (strTrim envPk)) = none →
      (respondToEchoRequest peers { envPubkey := some envPk, msgId := msgId }
          outcome idBytes).2 = [] ∧
      (respondToEchoRequest peers { envPubkey := some envPk, msgId := msgId }
          outcome idBytes).1 = false) ∧
    (∀ i, msgId = some i → strTrim i ≠ "" →
      echoResponseId msgId idBytes = strTrim i) := by
  refine ⟨?_, ?_, ?_⟩
  · intro entry hfind
    unfold respondToEchoRequest
    cases outcome <;> simp [hraw, hfind]
  · intro hfind
    unfold respondToEchoRequest
    simp [hraw, hfind]
  · intro i hi hnb
    subst hi
    simp [echoResponseId, bne_iff_ne.mpr hnb]

/-- Witness for claim C5: one recognized sender (policy carried in the
reply), one unknown sender (no reply). -/
theorem C5_witness :
    (respondToEchoRequest [{ pubkey := "ab", policy := some { send := true, recv := false } }]
        { envPubkey := some "ab", msgId := some "cid" } PublishOutcome.ok [0]).2 =
      [TransportCall.publish
        { data := policyJson { send := true, recv := false },
          id := echoResponseId (some "cid") [0], tag := "/echo/res" } "ab"] ∧
    (respondToEchoRequest [{ pubkey := "ab", policy := some { send := true, recv := false } }]
        { envPubkey := some "zz", msgId := some "cid" } PublishOutcome.ok [0]).2 = [] := by
  have h1 := (C5_respondToEchoRequest
    [{ pubkey := "ab", policy := some { send := true, recv := false } }]
    "ab" (some "cid") PublishOutcome.ok [0] (by decide)).1
    { pubkey := "ab", policy := some { send := true, recv := false } } (by decide)
  have h2 := (C5_respondToEchoRequest
    [{ pubkey := "ab", policy := some { send := true, recv := false } }]
    "zz" (some "cid") PublishOutcome.ok [0] (by decide)).2.1 (by decide)
  exact ⟨by simpa using h1, by simpa using h2.1⟩

/-! ## Claim C7 -/

/-- Claim C7 is refuted on its last conjunct: an inbound message whose tag
(`/foo/bar`) matches no control tag and none of the `/sign/`, `/ecdh/`,
`/ping/` prefixes produces zero log entries — the dispatcher has no generic
fall-through logging. -/
theorem C7_counterexample :
    (handleMessage (some "/foo/bar") true).logs = [] ∧
    eventLabel "/foo/bar" = none ∧
    strStarts "/foo/bar" "/sign/" = false ∧
    strStarts "/foo/bar" "/ecdh/" = false ∧
    strStarts "/foo/bar" "/ping/" = false := by
  decide

/-- Claim C7 (amended): dispatch classifies by tag — an exact control-tag
match appends its fixed label; a `/sign/`, `/ecdh/` or `/ping/` prefix
appends the corresponding category entry; `/echo/req` triggers the inbound
echo responder exactly when a node is active and itself appends no dispatch
log; and a tag matching none of these appends no log entry at all (there is
no generic fall-through logging). -/
theorem C7_handleMessage (tag : String) (nodeActive : Bool) :
    (∀ lbl, eventLabel tag = some lbl → (handleMessage (some tag) nodeActive).logs = [lbl]) ∧
    (strStarts tag "/sign/" = true →
      (handleMessage (some tag) nodeActive).logs = [("SIGN", "Signature event " ++ tag)]) ∧
    (strStarts tag "/ecdh/" = true →
      (handleMessage (some tag) nodeActive).logs = [("ECDH", "ECDH event " ++ tag)]) ∧
    (strStarts tag "/ping/" = true →
      (handleMessage (some tag) nodeActive).logs = [("PING", "Ping event " ++ tag)]) ∧
    ((handleMessage (some tag) nodeActive).echoTriggered = (tag == "/echo/req" && nodeActive)) ∧
    ((handleMessage (some "/echo/req") nodeActive).logs = []) ∧
    (eventLabel tag = none → strStarts tag "/sign/" = false → strStarts tag "/ecdh/" = false →
      strStarts tag "/ping/" = false → (handleMessage (some tag) nodeActive).logs = []) := by
  refine ⟨?_, ?_, ?_, ?_, rfl, ?_, ?_⟩
  · intro lbl hl
    unfold handleMessage
    simp [hl]
  · intro h
    have hr : tag ≠ "ready" := by
      rintro rfl
      exact absurd h (by decide)
    have hc : tag ≠ "closed" := by
      rintro rfl
      exact absurd h (by decide)
    have he : tag ≠ "error" := by
      rintro rfl
      exact absurd h (by decide)
    have hl : eventLabel tag = none := by
      simp [eventLabel, hr, hc, he]
    unfold handleMessage
    simp [hl, h]
  · intro h
    have hr : tag ≠ "ready" := by
      rintro rfl
      exact absurd h (by decide)
    have hc : tag ≠ "closed" := by
      rintro rfl
      exact absurd h (by decide)
    have he : tag ≠ "error" := by
      rintro rfl
      exact absurd h (by decide)
    have hl : eventLabel tag = none := by
      simp [eventLabel, hr, hc, he]
    have h' : charsPre ('/' :: 'e' :: ['c', 'd', 'h', '/']) tag.data = true := h
    obtain ⟨t, ht⟩ := charsPre_two h'
    have hsign : strStarts tag "/sign/" = false := by
      have hd : ("/sign/" : String).data = '/' :: 's' :: ['i', 'g', 'n', '/'] := rfl
      rw [strStarts, hd, ht]
      exact charsPre_false_second (by decide) _ t
    unfold handleMessage
    simp [hl, hsign, h]
  · intro h
    have hr : tag ≠ "ready" := by
      rintro rfl
      exact absurd h (by decide)
    have hc : tag ≠ "closed" := by
      rintro rfl
      exact absurd h (by decide)
    have he : tag ≠ "error" := by
      rintro rfl
      exact absurd h (by decide)
    have hl : eventLabel tag = none := by
      simp [eventLabel, hr, hc, he]
    have h' : charsPre ('/' :: 'p' :: ['i', 'n', 'g', '/']) tag.data = true := h
    obtain ⟨t, ht⟩ := charsPre_two h'
    have hsign : strStarts tag "/sign/" = false := by
      have hd : ("/sign/" : String).data = '/' :: 's' :: ['i', 'g', 'n', '/'] := rfl
      rw [strStarts, hd, ht]
      exact charsPre_false_second (by decide) _ t
    have hecdh : strStarts tag "/ecdh/" = false := by
      have hd : ("/ecdh/" : String).data = '/' :: 'e' :: ['c', 'd', 'h', '/'] := rfl
      rw [strStarts, hd, ht]
      exact charsPre_false_second (by decide) _ t
    unfold handleMessage
    simp [hl, hsign, hecdh, h]
  · cases nodeActive <;> decide
  · intro hl h1 h2 h3
    unfold handleMessage
    simp [hl, h1, h2, h3]

/-- Witness for the amended claim C7 on concrete tags from every branch. -/
theorem C7_witness :
    (handleMessage (some "ready") false).logs = [("READY", "Node is ready")] ∧
    (handleMessage (some "/sign/req") true).logs = [("SIGN", "Signature event /sign/req")] ∧
    (handleMessage (some "/ecdh/req") true).logs = [("ECDH", "ECDH event /ecdh/req")] ∧
    (handleMessage (some "/ping/req") true).logs = [("PING", "Ping event /ping/req")] ∧
    (handleMessage (some "/echo/req") true).echoTriggered = true ∧
    (handleMessage (some "/other") true).logs = [] := by
  refine ⟨(C7_handleMessage "ready" false).1 _ (by decide),
    (C7_handleMessage "/sign/req" true).2.1 (by decide),
    (C7_handleMessage "/ecdh/req" true).2.2.1 (by decide),
    (C7_handleMessage "/ping/req" true).2.2.2.1 (by decide),
    ?_,
    (C7_handleMessage "/other" true).2.2.2.2.2.2 (by decide) (by decide) (by decide) (by decide)⟩
  have h := (C7_handleMessage "/echo/req" true).2.2.2.2.1
  simpa using h

/-! ## Claim C8 -/

/-- Claim C8: the batched liveness refresh maps each peer of the effective
peer list to a peer with identical alias, pubkey and policy flags; a peer
whose probe result is found by normalized-pubkey lookup gets liveness
`online` exactly when the probe succeeded (and `offline` otherwise), while
a peer with no matching probe result keeps its prior liveness unchanged. -/
theorem C8_refreshPeerStatuses (peers fallback : List SignerPeer) (results : List PingStatus) :
    (refreshPeerStatuses peers fallback results).length =
      (effectivePeers peers fallback).length ∧
    (∀ (i : Nat) (p : SignerPeer), (effectivePeers peers fallback)[i]? = some p →
      ∃ q : SignerPeer, (refreshPeerStatuses peers fallback results)[i]? = some q ∧
        q.pubkey = p.pubkey ∧ q.aliasTag = p.aliasTag ∧ q.send = p.send ∧
        q.receive = p.receive ∧
        ((∀ r ∈ results, safeNormalize r.pubkey ≠ safeNormalize p.pubkey) →
          q.state = p.state) ∧
        (∀ r, results.find?
            (fun e => safeNormalize e.pubkey == safeNormalize p.pubkey) = some r →
          q.state = if r.success then "online" else "offline")) := by
  unfold refreshPeerStatuses
  by_cases hE : (effectivePeers peers fallback).isEmpty
  · rw [if_pos hE]
    refine ⟨rfl, fun i p hp => ?_⟩
    rw [List.isEmpty_iff.mp hE] at hp
    exact absurd hp (by simp)
  · rw [if_neg hE]
    refine ⟨List.length_map _ _, fun i p hp => ?_⟩
    refine ⟨refreshOnePeer results p, ?_, ?_⟩
    · rw [List.getElem?_map, hp]
      rfl
    · unfold refreshOnePeer
      cases hf : results.find? (fun e => safeNormalize e.pubkey == safeNormalize p.pubkey) with
      | none =>
        exact ⟨rfl, rfl, rfl, rfl, fun _ => rfl, fun r hr => Option.noConfusion hr⟩
      | some st =>
        refine ⟨rfl, rfl, rfl, rfl, fun hnone => ?_, fun r hr => ?_⟩
        · have hmem := List.mem_of_find?_eq_some hf
          have hmatch := List.find?_some hf
          rw [beq_iff_eq] at hmatch
          exact absurd hmatch (hnone st hmem)
        · cases hr
          rfl

/-- Witness for claim C8 at a concrete peer list and probe results. -/
theorem C8_witness :
    ∃ q, (refreshPeerStatuses
        [{ aliasTag := "Peer 1", pubkey := "aa", send := true, receive := true,
           state := "offline" }] []
        [{ pubkey := "aa", success := true }])[0]? = some q ∧
      q.pubkey = "aa" ∧ q.state = "online" := by
  have h := (C8_refreshPeerStatuses
    [{ aliasTag := "Peer 1", pubkey := "aa", send := true, receive := true,
       state := "offline" }] []
    [{ pubkey := "aa", success := true }]).2 0
    { aliasTag := "Peer 1", pubkey := "aa", send := true, receive := true,
      state := "offline" } (by decide)
  obtain ⟨q, hq, hpk, -, -, -, -, hfound⟩ := h
  refine ⟨q, hq, hpk, ?_⟩
  rw [hfound { pubkey := "aa", success := true } (by decide)]
  decide

/-! ## Claim C9 -/

/-- Claim C9: appending to the bounded log keeps at most `MAX_LOGS` (200)
entries, ends with the appended entry, and keeps exactly the most recent
`min (prev.length, 199)` previous entries, evicting the oldest first. -/
theorem C9_addLog (prev : List LogEntry) (entry : LogEntry) :
    (addLog prev entry).length ≤ MAX_LOGS ∧
    (addLog prev entry).length = min (prev.length + 1) MAX_LOGS ∧
    (addLog prev entry).getLast? = some entry ∧
    ∃ dropped kept, prev = dropped ++ kept ∧ addLog prev entry = kept ++ [entry] ∧
      kept.length = min prev.length (MAX_LOGS - 1) := by
  have hmax : MAX_LOGS = 200 := rfl
  have hone : ([entry] : List LogEntry).length = 1 := rfl
  refine ⟨?_, ?_, ?_, prev.take (prev.length - (MAX_LOGS - 1)),
    prev.drop (prev.length - (MAX_LOGS - 1)),
    (List.take_append_drop _ _).symm, rfl, ?_⟩
  · unfold addLog
    rw [List.length_append, List.length_drop, hone, hmax]
    omega
  · unfold addLog
    rw [List.length_append, List.length_drop, hone, hmax]
    omega
  · unfold addLog
    exact List.getLast?_concat _
  · rw [List.length_drop, hmax]
    omega

/-! ## Claim C10 -/

/-- Claim C10: loading the plaintext peer-policy store is total and never
surfaces an error — it returns the empty list both when no record is
present and when the stored record fails to parse, and the parsed list
otherwise; this holds for every possible parse function. -/
theorem C10_loadPeerPolicies (parse : String → Option (List StoredPeerPolicy)) :
    loadPeerPolicies none parse = [] ∧
    (∀ s, parse s = none → loadPeerPolicies (some s) parse = []) ∧
    (∀ s l, parse s = some l → loadPeerPolicies (some s) parse = l) := by
  refine ⟨rfl, ?_, ?_⟩
  · intro s hs
    show (parse s).getD [] = []
    rw [hs]
    rfl
  · intro s l hs
    show (parse s).getD [] = l
    rw [hs]
    rfl

/-- Witness for claim C10 against concrete parse outcomes. -/
theorem C10_witness :
    loadPeerPolicies none (fun _ => none) = [] ∧
    loadPeerPolicies (some "not json") (fun _ => none) = [] ∧
    loadPeerPolicies (some "policies")
      (fun _ => some [{ pubkey := "aa", send := false, receive := true }]) =
      [{ pubkey := "aa", send := false, receive := true }] :=
  ⟨(C10_loadPeerPolicies (fun _ => none)).1,
    (C10_loadPeerPolicies (fun _ => none)).2.1 "not json" rfl,
    (C10_loadPeerPolicies
      (fun _ => some [{ pubkey := "aa", send := false, receive := true }])).2.2
      "policies" _ rfl⟩

end IglooWeb
